import Mathlib

/-!
Verification of the 3D Worley noise generator in `worley_noise.h`.

The header is shallowly embedded: C++ `std::size_t` values become `ℕ`,
`int` becomes `ℤ`, and `float` arithmetic is modelled by exact real
arithmetic over `ℝ` (so `std::sqrtf` becomes `Real.sqrt`).  The
`std::mt19937` / `std::uniform_int_distribution` pipeline is modelled by
an oracle `draws : ℕ → ℕ` giving the successive values returned by
`dist(engine)`; `uniform_int_distribution(0, c - 1)` guarantees each
returned value lies in `[0, c - 1]`, captured by `drawsAdmissible`.
-/

namespace worley

/-- Embeds `details::Vector3<T>`. -/
structure Vector3 (α : Type) where
  x : α
  y : α
  z : α
deriving DecidableEq

/-- Embeds `details::Vector3f = Vector3<float>` (floats modelled as reals). -/
abbrev Vector3f := Vector3 ℝ

/-- Embeds `details::Vector3i = Vector3<int>`. -/
abbrev Vector3i := Vector3 ℤ

/-- Embeds `details::distance`: Euclidean distance via `sqrtf`. -/
noncomputable def distance (v1 v2 : Vector3f) : ℝ :=
  Real.sqrt ((v2.x - v1.x) * (v2.x - v1.x) + (v2.y - v1.y) * (v2.y - v1.y) +
    (v2.z - v1.z) * (v2.z - v1.z))

/-- Embeds `details::toVector3f`: componentwise `static_cast<float>`. -/
noncomputable def toVector3f (v : Vector3i) : Vector3f :=
  ⟨(v.x : ℝ), (v.y : ℝ), (v.z : ℝ)⟩

/-- Embeds line 41 of `generateFeaturePoints`:
`const int sizeOfEachCell = static_cast<int>(size / gridSize);`
(`size / gridSize` is `size_t` division, hence truncating). -/
def sizeOfEachCellInt (size gridSize : ℕ) : ℤ :=
  ((size / gridSize : ℕ) : ℤ)

/-- The body of the innermost loop of `generateFeaturePoints`: the feature
point emplaced for cell `(i, j, k)`.  The three `dist(engine)` calls for
this cell are draws number `3*m`, `3*m+1`, `3*m+2` where `m` is the flat
cell index in loop order. -/
def featurePoint (size gridSize : ℕ) (draws : ℕ → ℕ) (i j k : ℕ) : Vector3i :=
  let c := sizeOfEachCellInt size gridSize
  let m := 3 * ((i * gridSize + j) * gridSize + k)
  ⟨(i : ℤ) * c + (draws m : ℤ),
   (j : ℤ) * c + (draws (m + 1) : ℤ),
   (k : ℤ) * c + (draws (m + 2) : ℤ)⟩

/-- Embeds `details::generateFeaturePoints`: the triply nested loop over
cells `(i, j, k)` with `i` outermost, emplacing one point per cell. -/
def generateFeaturePoints (size gridSize : ℕ) (draws : ℕ → ℕ) : List Vector3i :=
  (List.range gridSize).flatMap (fun i =>
    (List.range gridSize).flatMap (fun j =>
      (List.range gridSize).map (fun k => featurePoint size gridSize draws i j k)))

/-- What `std::uniform_int_distribution dist(0, sizeOfEachCell - 1)`
guarantees about every value `dist(engine)` returns (when the range is
non-empty, i.e. `sizeOfEachCell ≥ 1`). -/
def drawsAdmissible (size gridSize : ℕ) (draws : ℕ → ℕ) : Prop :=
  ∀ n, draws n < size / gridSize

/-- Embeds `details::mapValue`. -/
noncomputable def mapValue (value oldMin oldMax newMin newMax : ℝ) : ℝ :=
  newMin + (value - oldMin) * (newMax - newMin) / (oldMax - oldMin)

/-- Embeds line 83 of `worleyNoise3D`:
`const float sizeOfEachCell = size / gridSize;` — both operands are
`std::size_t`, so the division truncates BEFORE the implicit conversion
to `float`. -/
noncomputable def sizeOfEachCellF (size gridSize : ℕ) : ℝ :=
  ((size / gridSize : ℕ) : ℝ)

/-- Embeds line 84 of `worleyNoise3D`:
`const float maxCellDistance = std::sqrtf(sizeOfEachCell * sizeOfEachCell * 3.f);`. -/
noncomputable def maxCellDistance (size gridSize : ℕ) : ℝ :=
  Real.sqrt (sizeOfEachCellF size gridSize * sizeOfEachCellF size gridSize * 3)

/-- Embeds `std::numeric_limits<float>::max() = (2^24 - 1) * 2^104`. -/
noncomputable def fltMax : ℝ := 2 ^ 128 - 2 ^ 104

/-- Embeds the lambda `toLinearIndex` of `worleyNoise3D`. -/
def toLinearIndex (size w h d : ℕ) : ℕ :=
  w + h * size + d * size * size

/-- The body of the feature-point scan (lines 96-99): keep `d` when
`d < min`, else keep `min`. -/
noncomputable def scanStep (v : Vector3f) (m : ℝ) (p : Vector3i) : ℝ :=
  if distance (toVector3f p) v < m then distance (toVector3f p) v else m

/-- Embeds the inner scan of `worleyNoise3D` (lines 93-100): starting from
`std::numeric_limits<float>::max()`, scan all feature points and keep the
smaller distance. -/
noncomputable def minScan (pts : List Vector3i) (v : Vector3f) : ℝ :=
  pts.foldl (scanStep v) fltMax

/-- The value stored for voxel `(x, y, z)` (line 101):
`1.f - mapValue(min, 0.f, maxCellDistance, 0.f, 1.f)`. -/
noncomputable def noiseValue (pts : List Vector3i) (maxD : ℝ) (x y z : ℕ) : ℝ :=
  1 - mapValue (minScan pts ⟨(x : ℝ), (y : ℝ), (z : ℝ)⟩) 0 maxD 0 1

/-- The voxel coordinates visited by the triple loop of `worleyNoise3D`,
in loop order (`x` outermost, `z` innermost). -/
def voxels (size : ℕ) : List (ℕ × ℕ × ℕ) :=
  (List.range size).flatMap (fun x =>
    (List.range size).flatMap (fun y =>
      (List.range size).map (fun z => (x, y, z))))

/-- Embeds `worley::worleyNoise3D`: a `std::vector<float>` of `size³`
zero-initialised floats, written at `toLinearIndex(x,y,z)` for every voxel
in loop order. -/
noncomputable def worleyNoise3D (size gridSize : ℕ) (draws : ℕ → ℕ) : List ℝ :=
  let pts := generateFeaturePoints size gridSize draws
  let maxD := maxCellDistance size gridSize
  (voxels size).foldl
    (fun acc t => acc.set (toLinearIndex size t.1 t.2.1 t.2.2) (noiseValue pts maxD t.1 t.2.1 t.2.2))
    (List.replicate (size * size * size) 0)

/-- The cell edge the spec claims the Evaluator uses: the real-valued
(non-truncated) quotient.  Modelled from the spec for comparison with
`sizeOfEachCellF`, which is what the code computes. -/
noncomputable def specEvaluatorCellEdge (size gridSize : ℕ) : ℝ :=
  (size : ℝ) / (gridSize : ℝ)

/-- Claim C1 counterexample: at `size = 5, gridSize = 2` (not evenly
divisible) the Evaluator's cell edge is `2`, the integer-truncated
quotient — equal to the Generator's, not the real quotient `5/2`, and
`maxCellDistance` is `2·√3`, not `(5/2)·√3`. -/
theorem C1_counterexample :
    5 % 2 ≠ 0 ∧
    sizeOfEachCellF 5 2 = ((sizeOfEachCellInt 5 2 : ℤ) : ℝ) ∧
    sizeOfEachCellF 5 2 ≠ specEvaluatorCellEdge 5 2 ∧
    maxCellDistance 5 2 ≠ specEvaluatorCellEdge 5 2 * Real.sqrt 3 := by
  have h5 : (5 : ℕ) / 2 = 2 := by norm_num
  have hF : sizeOfEachCellF 5 2 = 2 := by
    simp [sizeOfEachCellF, h5]
  refine ⟨by norm_num, ?_, ?_, ?_⟩
  · simp [sizeOfEachCellF, sizeOfEachCellInt, h5]
  · rw [hF]
    simp only [specEvaluatorCellEdge]
    norm_num
  · rw [show maxCellDistance 5 2 = 2 * Real.sqrt 3 by
      rw [maxCellDistance, hF]
      rw [show (2 : ℝ) * 2 * 3 = 3 * 2 ^ 2 by ring]
      rw [Real.sqrt_mul (by norm_num : (3:ℝ) ≥ 0) (2 ^ 2)]
      rw [Real.sqrt_sq (by norm_num : (0:ℝ) ≤ 2)]
      ring]
    simp only [specEvaluatorCellEdge]
    intro h
    have hs3 : Real.sqrt 3 ≠ 0 := by
      have : (0:ℝ) < Real.sqrt 3 := Real.sqrt_pos.mpr (by norm_num)
      exact ne_of_gt this
    have : (2 : ℝ) = 5 / 2 := by
      field_simp at h
      nlinarith [Real.sq_sqrt (by norm_num : (3:ℝ) ≥ 0), Real.sqrt_nonneg 3]
    norm_num at this

/-- Claim C1 (amended): the Evaluator's cell edge equals the Generator's
integer-truncated cell edge for EVERY input (line 83 divides two
`size_t` values, truncating before the float conversion), and
`maxCellDistance` equals that truncated quotient times `√3`. -/
theorem C1_amended (size gridSize : ℕ) :
    sizeOfEachCellF size gridSize = ((sizeOfEachCellInt size gridSize : ℤ) : ℝ) ∧
    maxCellDistance size gridSize = sizeOfEachCellF size gridSize * Real.sqrt 3 := by
  constructor
  · simp only [sizeOfEachCellF, sizeOfEachCellInt]
    norm_cast
  · rw [maxCellDistance]
    have hc : (0 : ℝ) ≤ sizeOfEachCellF size gridSize := by
      simp [sizeOfEachCellF]
    rw [show sizeOfEachCellF size gridSize * sizeOfEachCellF size gridSize * 3
        = 3 * sizeOfEachCellF size gridSize ^ 2 by ring]
    rw [Real.sqrt_mul (by norm_num : (3:ℝ) ≥ 0)]
    rw [Real.sqrt_sq hc]
    exact mul_comm _ _

/-- Length of a `flatMap` over `List.range` whose blocks all have length `L`. -/
theorem length_flatMap_range {α : Type} (f : ℕ → List α) (n L : ℕ)
    (h : ∀ i, i < n → (f i).length = L) :
    ((List.range n).flatMap f).length = n * L := by
  induction n with
  | zero => simp
  | succ n ih =>
    rw [List.range_succ, List.flatMap_append, List.length_append,
      ih (fun i hi => h i (Nat.lt_succ_of_lt hi))]
    simp [h n (Nat.lt_succ_self n), Nat.succ_mul]

/-- Indexing into a `flatMap` over `List.range` with constant block length:
position `a * L + b` lands at offset `b` of block `a` (optional-index form). -/
theorem getElem?_flatMap_range {α : Type} (f : ℕ → List α) (n L : ℕ)
    (h : ∀ i, i < n → (f i).length = L) (a b : ℕ) (ha : a < n) (hb : b < L) :
    ((List.range n).flatMap f)[a * L + b]? = (f a)[b]? := by
  induction n with
  | zero => exact absurd ha (Nat.not_lt_zero a)
  | succ n ih =>
    have hlen : ((List.range n).flatMap f).length = n * L :=
      length_flatMap_range f n L (fun i hi => h i (Nat.lt_succ_of_lt hi))
    rw [List.range_succ, List.flatMap_append]
    rcases Nat.lt_or_ge a n with han | han
    · have hidx : a * L + b < ((List.range n).flatMap f).length := by
        rw [hlen]
        calc a * L + b < a * L + L := by omega
        _ = (a + 1) * L := by ring
        _ ≤ n * L := Nat.mul_le_mul_right L han
      rw [List.getElem?_append_left hidx]
      exact ih (fun i hi => h i (Nat.lt_succ_of_lt hi)) han
    · have haeq : a = n := Nat.le_antisymm (Nat.lt_succ_iff.mp ha) han
      subst haeq
      have hge : ((List.range a).flatMap f).length ≤ a * L + b := by rw [hlen]; omega
      rw [List.getElem?_append_right hge]
      simp only [List.flatMap_cons, List.flatMap_nil, List.append_nil]
      have : a * L + b - ((List.range a).flatMap f).length = b := by rw [hlen]; omega
      rw [this]

/-- The `getElem` form of `getElem?_flatMap_range`. -/
theorem getElem_flatMap_range {α : Type} (f : ℕ → List α) (n L : ℕ)
    (h : ∀ i, i < n → (f i).length = L) (a b : ℕ) (ha : a < n) (hb : b < L)
    (h1 : a * L + b < ((List.range n).flatMap f).length)
    (h2 : b < (f a).length) :
    ((List.range n).flatMap f)[a * L + b] = (f a)[b] := by
  have hq := getElem?_flatMap_range f n L h a b ha hb
  rw [List.getElem?_eq_getElem h1, List.getElem?_eq_getElem h2] at hq
  exact Option.some_injective _ hq

/-- Folding `List.set` writes preserves the length of the vector. -/
theorem length_foldl_set {α β : Type} (l : List β) (idxf : β → ℕ) (valf : β → α)
    (init : List α) :
    (l.foldl (fun acc t => acc.set (idxf t) (valf t)) init).length = init.length := by
  induction l generalizing init with
  | nil => rfl
  | cons w l ih => rw [List.foldl_cons, ih, List.length_set]

/-- A cell never written by the fold of `List.set` writes keeps its
initial content. -/
theorem getElem?_foldl_set_of_not_mem {α β : Type} (l : List β) (idxf : β → ℕ)
    (valf : β → α) (init : List α) (idx : ℕ) (hm : ∀ t ∈ l, idxf t ≠ idx) :
    (l.foldl (fun acc t => acc.set (idxf t) (valf t)) init)[idx]? = init[idx]? := by
  induction l generalizing init with
  | nil => rfl
  | cons w l ih =>
    rw [List.foldl_cons, ih _ (fun t ht => hm t (List.mem_cons_of_mem w ht)),
      List.getElem?_set_ne (hm w (List.mem_cons_self w l))]

/-- When every write stores a value determined by its index
(`valf t = g (idxf t)`), a cell that is written at least once ends up
holding `g idx`, regardless of how often or in which order it is written. -/
theorem getElem?_foldl_set_fun {α β : Type} (l : List β) (idxf : β → ℕ)
    (valf : β → α) (g : ℕ → α) (hg : ∀ t ∈ l, valf t = g (idxf t))
    (init : List α) (idx : ℕ) (hmem : ∃ t ∈ l, idxf t = idx)
    (hlen : idx < init.length) :
    (l.foldl (fun acc t => acc.set (idxf t) (valf t)) init)[idx]? = some (g idx) := by
  induction l generalizing init with
  | nil => simp at hmem
  | cons w l ih =>
    rw [List.foldl_cons]
    by_cases hmem2 : ∃ t ∈ l, idxf t = idx
    · exact ih (fun u hu => hg u (List.mem_cons_of_mem w hu)) _ hmem2
        (by rw [List.length_set]; exact hlen)
    · have hwidx : idxf w = idx := by
        obtain ⟨t, ht, hteq⟩ := hmem
        rcases List.mem_cons.mp ht with rfl | htl
        · exact hteq
        · exact absurd ⟨t, htl, hteq⟩ hmem2
      have hnot : ∀ t ∈ l, idxf t ≠ idx := by
        intro t ht hteq
        exact hmem2 ⟨t, ht, hteq⟩
      rw [getElem?_foldl_set_of_not_mem l idxf valf _ idx hnot, ← hwidx,
        List.getElem?_set_self (by rw [hwidx]; exact hlen),
        hg w (List.mem_cons_self w l), hwidx]

/-- The generated list has one entry per grid cell. -/
theorem generateFeaturePoints_length (size gridSize : ℕ) (draws : ℕ → ℕ) :
    (generateFeaturePoints size gridSize draws).length = gridSize * gridSize * gridSize := by
  rw [generateFeaturePoints, length_flatMap_range _ gridSize (gridSize * gridSize)
    (fun i _ => length_flatMap_range _ gridSize gridSize (fun j _ => by simp))]
  ring

/-- The entry at flat index `(i·g + j)·g + k` is the point of cell `(i, j, k)`
(optional-index form). -/
theorem generateFeaturePoints_getElem? (size gridSize : ℕ) (draws : ℕ → ℕ)
    (i j k : ℕ) (hi : i < gridSize) (hj : j < gridSize) (hk : k < gridSize) :
    (generateFeaturePoints size gridSize draws)[(i * gridSize + j) * gridSize + k]?
      = some (featurePoint size gridSize draws i j k) := by
  have hsplit : (i * gridSize + j) * gridSize + k
      = i * (gridSize * gridSize) + (j * gridSize + k) := by ring
  have hjk : j * gridSize + k < gridSize * gridSize := by
    calc j * gridSize + k < j * gridSize + gridSize := by omega
    _ = (j + 1) * gridSize := by ring
    _ ≤ gridSize * gridSize := Nat.mul_le_mul_right gridSize hj
  rw [generateFeaturePoints, hsplit,
    getElem?_flatMap_range _ gridSize (gridSize * gridSize)
      (fun a _ => length_flatMap_range _ gridSize gridSize (fun b _ => by simp))
      i (j * gridSize + k) hi hjk,
    getElem?_flatMap_range _ gridSize gridSize (fun b _ => by simp) j k hj hk,
    List.getElem?_map]
  rw [List.getElem?_range hk]
  rfl

/-- Every member of the generated list is the point of some cell. -/
theorem generateFeaturePoints_mem (size gridSize : ℕ) (draws : ℕ → ℕ)
    (p : Vector3i) (hp : p ∈ generateFeaturePoints size gridSize draws) :
    ∃ i j k, i < gridSize ∧ j < gridSize ∧ k < gridSize ∧
      p = featurePoint size gridSize draws i j k := by
  simp only [generateFeaturePoints, List.mem_flatMap, List.mem_map, List.mem_range] at hp
  obtain ⟨i, hi, j, hj, k, hk, hpk⟩ := hp
  exact ⟨i, j, k, hi, hj, hk, hpk.symm⟩

/-- Each coordinate of the cell `(i,j,k)` point lies in the cell's local
range when the draws are admissible. -/
theorem featurePoint_bounds (size gridSize : ℕ) (draws : ℕ → ℕ)
    (hd : drawsAdmissible size gridSize draws) (i j k : ℕ) :
    (i : ℤ) * sizeOfEachCellInt size gridSize ≤ (featurePoint size gridSize draws i j k).x ∧
    (featurePoint size gridSize draws i j k).x ≤ ((i : ℤ) + 1) * sizeOfEachCellInt size gridSize - 1 ∧
    (j : ℤ) * sizeOfEachCellInt size gridSize ≤ (featurePoint size gridSize draws i j k).y ∧
    (featurePoint size gridSize draws i j k).y ≤ ((j : ℤ) + 1) * sizeOfEachCellInt size gridSize - 1 ∧
    (k : ℤ) * sizeOfEachCellInt size gridSize ≤ (featurePoint size gridSize draws i j k).z ∧
    (featurePoint size gridSize draws i j k).z ≤ ((k : ℤ) + 1) * sizeOfEachCellInt size gridSize - 1 := by
  have hdraw : ∀ n, (0 : ℤ) ≤ (draws n : ℤ) ∧ (draws n : ℤ) ≤ sizeOfEachCellInt size gridSize - 1 := by
    intro n
    refine ⟨Int.ofNat_nonneg _, ?_⟩
    have := hd n
    simp only [sizeOfEachCellInt]
    omega
  simp only [featurePoint]
  refine ⟨?_, ?_, ?_, ?_, ?_, ?_⟩ <;>
    [skip; nlinarith [(hdraw (3 * ((i * gridSize + j) * gridSize + k))).2];
     skip; nlinarith [(hdraw (3 * ((i * gridSize + j) * gridSize + k) + 1)).2];
     skip; nlinarith [(hdraw (3 * ((i * gridSize + j) * gridSize + k) + 2)).2]] <;>
    [nlinarith [(hdraw (3 * ((i * gridSize + j) * gridSize + k))).1];
     nlinarith [(hdraw (3 * ((i * gridSize + j) * gridSize + k) + 1)).1];
     nlinarith [(hdraw (3 * ((i * gridSize + j) * gridSize + k) + 2)).1]]

/-- Under the preconditions the truncated cell edge is at least 1. -/
theorem sizeOfEachCellInt_pos (size gridSize : ℕ) (hg : 0 < gridSize)
    (hgs : gridSize ≤ size) : 1 ≤ sizeOfEachCellInt size gridSize := by
  simp only [sizeOfEachCellInt]
  have : 1 ≤ size / gridSize := (Nat.one_le_div_iff hg).mpr hgs
  omega

/-- gridSize blocks of the truncated cell edge fit inside the volume. -/
theorem gridSize_mul_cellEdge_le (size gridSize : ℕ) :
    (gridSize : ℤ) * sizeOfEachCellInt size gridSize ≤ (size : ℤ) := by
  simp only [sizeOfEachCellInt]
  have := Nat.div_mul_le_self size gridSize
  have h2 : gridSize * (size / gridSize) ≤ size := by
    rw [Nat.mul_comm]
    exact this
  exact_mod_cast h2

/-- Every generated feature point lies inside `[0, size)³` (helper shared by
several claims). -/
theorem featurePoint_in_volume (size gridSize : ℕ) (draws : ℕ → ℕ)
    (hg : 0 < gridSize) (hgs : gridSize ≤ size) (hd : drawsAdmissible size gridSize draws)
    (p : Vector3i) (hp : p ∈ generateFeaturePoints size gridSize draws) :
    (0 ≤ p.x ∧ p.x < (size : ℤ)) ∧ (0 ≤ p.y ∧ p.y < (size : ℤ)) ∧
    (0 ≤ p.z ∧ p.z < (size : ℤ)) := by
  obtain ⟨i, j, k, hi, hj, hk, rfl⟩ := generateFeaturePoints_mem size gridSize draws p hp
  obtain ⟨hx1, hx2, hy1, hy2, hz1, hz2⟩ := featurePoint_bounds size gridSize draws hd i j k
  have hc1 : 1 ≤ sizeOfEachCellInt size gridSize := sizeOfEachCellInt_pos size gridSize hg hgs
  have hgc : (gridSize : ℤ) * sizeOfEachCellInt size gridSize ≤ (size : ℤ) :=
    gridSize_mul_cellEdge_le size gridSize
  have hi' : (i : ℤ) + 1 ≤ (gridSize : ℤ) := by exact_mod_cast hi
  have hj' : (j : ℤ) + 1 ≤ (gridSize : ℤ) := by exact_mod_cast hj
  have hk' : (k : ℤ) + 1 ≤ (gridSize : ℤ) := by exact_mod_cast hk
  have hix : (0 : ℤ) ≤ (i : ℤ) := Int.ofNat_nonneg i
  have hjx : (0 : ℤ) ≤ (j : ℤ) := Int.ofNat_nonneg j
  have hkx : (0 : ℤ) ≤ (k : ℤ) := Int.ofNat_nonneg k
  refine ⟨⟨?_, ?_⟩, ⟨?_, ?_⟩, ⟨?_, ?_⟩⟩ <;> nlinarith

/-- The scan fold is bounded by its accumulator, bounded by every scanned
distance, and equal to the accumulator or to one of the scanned distances. -/
theorem foldl_scanStep_spec (v : Vector3f) (l : List Vector3i) (a : ℝ) :
    l.foldl (scanStep v) a ≤ a ∧
    (∀ p ∈ l, l.foldl (scanStep v) a ≤ distance (toVector3f p) v) ∧
    (l.foldl (scanStep v) a = a ∨ ∃ p ∈ l, l.foldl (scanStep v) a = distance (toVector3f p) v) := by
  induction l generalizing a with
  | nil => exact ⟨le_refl a, fun p hp => absurd hp (List.not_mem_nil p), Or.inl rfl⟩
  | cons p l ih =>
    obtain ⟨ih1, ih2, ih3⟩ := ih (scanStep v a p)
    have hstep_le_a : scanStep v a p ≤ a := by
      unfold scanStep; split
      · exact le_of_lt (by assumption)
      · exact le_refl a
    have hstep_le_d : scanStep v a p ≤ distance (toVector3f p) v := by
      unfold scanStep; split
      · exact le_refl _
      · exact le_of_not_lt (by assumption)
    have hstep_cases : scanStep v a p = a ∨ scanStep v a p = distance (toVector3f p) v := by
      unfold scanStep; split
      · exact Or.inr rfl
      · exact Or.inl rfl
    rw [List.foldl_cons]
    refine ⟨ih1.trans hstep_le_a, ?_, ?_⟩
    · intro q hq
      rcases List.mem_cons.mp hq with rfl | hql
      · exact ih1.trans hstep_le_d
      · exact ih2 q hql
    · rcases ih3 with heq | ⟨q, hq, heq⟩
      · rcases hstep_cases with hsa | hsd
        · exact Or.inl (heq.trans hsa)
        · exact Or.inr ⟨p, List.mem_cons_self p l, heq.trans hsd⟩
      · exact Or.inr ⟨q, List.mem_cons_of_mem p hq, heq⟩

/-- When the scanned list is non-empty and every distance is below the
initial `FLT_MAX` accumulator, the scan computes the true global minimum:
it is attained at some scanned point and bounds all of them. -/
theorem minScan_attained (pts : List Vector3i) (v : Vector3f) (hne : pts ≠ [])
    (hlt : ∀ p ∈ pts, distance (toVector3f p) v < fltMax) :
    (∃ p ∈ pts, minScan pts v = distance (toVector3f p) v) ∧
    ∀ p ∈ pts, minScan pts v ≤ distance (toVector3f p) v := by
  obtain ⟨h1, h2, h3⟩ := foldl_scanStep_spec v pts fltMax
  refine ⟨?_, h2⟩
  rcases h3 with heq | hat
  · obtain ⟨p0, hp0⟩ := List.exists_mem_of_ne_nil pts hne
    have := h2 p0 hp0
    have := hlt p0 hp0
    rw [minScan] at *
    linarith
  · exact hat

/-- Distances are non-negative. -/
theorem distance_nonneg (v1 v2 : Vector3f) : 0 ≤ distance v1 v2 :=
  Real.sqrt_nonneg _

/-- The distance between coinciding points is zero. -/
theorem distance_self_eq_zero (v1 v2 : Vector3f) (hx : v1.x = v2.x)
    (hy : v1.y = v2.y) (hz : v1.z = v2.z) : distance v1 v2 = 0 := by
  rw [distance, hx, hy, hz]
  simp

/-- Any distance between a point of the volume and a voxel of the volume is
(far) below `FLT_MAX`, provided the volume size fits in a `size_t`. -/
theorem distance_lt_fltMax (size : ℕ) (hsize : size < 2 ^ 64) (p : Vector3i)
    (hpx : 0 ≤ p.x ∧ p.x < (size : ℤ)) (hpy : 0 ≤ p.y ∧ p.y < (size : ℤ))
    (hpz : 0 ≤ p.z ∧ p.z < (size : ℤ)) (x y z : ℕ)
    (hx : x < size) (hy : y < size) (hz : z < size) :
    distance (toVector3f p) ⟨(x : ℝ), (y : ℝ), (z : ℝ)⟩ < fltMax := by
  rw [distance, fltMax]
  have hflt : (0 : ℝ) < 2 ^ 128 - 2 ^ 104 := by norm_num
  rw [show Real.sqrt (((x:ℝ) - (toVector3f p).x) * ((x:ℝ) - (toVector3f p).x) +
      ((y:ℝ) - (toVector3f p).y) * ((y:ℝ) - (toVector3f p).y) +
      ((z:ℝ) - (toVector3f p).z) * ((z:ℝ) - (toVector3f p).z)) < 2 ^ 128 - 2 ^ 104 ↔ _
    from Real.sqrt_lt' hflt]
  have hs : (size : ℝ) < 2 ^ 64 := by exact_mod_cast hsize
  have hs0 : (0 : ℝ) ≤ (size : ℝ) := Nat.cast_nonneg size
  have hpx1 : (0 : ℝ) ≤ ((p.x : ℤ) : ℝ) := by exact_mod_cast hpx.1
  have hpx2 : ((p.x : ℤ) : ℝ) < (size : ℝ) := by exact_mod_cast hpx.2
  have hpy1 : (0 : ℝ) ≤ ((p.y : ℤ) : ℝ) := by exact_mod_cast hpy.1
  have hpy2 : ((p.y : ℤ) : ℝ) < (size : ℝ) := by exact_mod_cast hpy.2
  have hpz1 : (0 : ℝ) ≤ ((p.z : ℤ) : ℝ) := by exact_mod_cast hpz.1
  have hpz2 : ((p.z : ℤ) : ℝ) < (size : ℝ) := by exact_mod_cast hpz.2
  have hx2 : ((x : ℕ) : ℝ) < (size : ℝ) := by exact_mod_cast hx
  have hx1 : (0 : ℝ) ≤ ((x : ℕ) : ℝ) := Nat.cast_nonneg x
  have hy2 : ((y : ℕ) : ℝ) < (size : ℝ) := by exact_mod_cast hy
  have hy1 : (0 : ℝ) ≤ ((y : ℕ) : ℝ) := Nat.cast_nonneg y
  have hz2 : ((z : ℕ) : ℝ) < (size : ℝ) := by exact_mod_cast hz
  have hz1 : (0 : ℝ) ≤ ((z : ℕ) : ℝ) := Nat.cast_nonneg z
  have hsx : ((x:ℝ) - (toVector3f p).x) * ((x:ℝ) - (toVector3f p).x) ≤ (size : ℝ) ^ 2 := by
    rw [toVector3f]
    nlinarith
  have hsy : ((y:ℝ) - (toVector3f p).y) * ((y:ℝ) - (toVector3f p).y) ≤ (size : ℝ) ^ 2 := by
    rw [toVector3f]
    nlinarith
  have hsz : ((z:ℝ) - (toVector3f p).z) * ((z:ℝ) - (toVector3f p).z) ≤ (size : ℝ) ^ 2 := by
    rw [toVector3f]
    nlinarith
  have hbig : (3 : ℝ) * ((2:ℝ) ^ 64) ^ 2 < ((2:ℝ) ^ 128 - 2 ^ 104) ^ 2 := by norm_num
  nlinarith

/-- Linear index arithmetic: the index decodes back to the coordinates. -/
theorem toLinearIndex_decode (size x y z : ℕ) (hx : x < size) (hy : y < size)
    (hz : z < size) :
    toLinearIndex size x y z % size = x ∧
    toLinearIndex size x y z / size % size = y ∧
    toLinearIndex size x y z / (size * size) = z := by
  have hs : 0 < size := by omega
  have hrw : toLinearIndex size x y z = x + (y + z * size) * size := by
    rw [toLinearIndex]; ring
  have hxy : x + y * size < size * size := by
    calc x + y * size < size + y * size := by omega
    _ = (y + 1) * size := by ring
    _ ≤ size * size := Nat.mul_le_mul_right size hy
  refine ⟨?_, ?_, ?_⟩
  · rw [hrw, Nat.add_mul_mod_self_right, Nat.mod_eq_of_lt hx]
  · rw [hrw, Nat.add_mul_div_right _ _ hs, Nat.div_eq_of_lt hx]
    rw [Nat.zero_add, Nat.add_mul_mod_self_right, Nat.mod_eq_of_lt hy]
  · have hrw2 : toLinearIndex size x y z = (x + y * size) + z * (size * size) := by
      rw [toLinearIndex]; ring
    rw [hrw2, Nat.add_mul_div_right _ _ (Nat.mul_pos hs hs), Nat.div_eq_of_lt hxy,
      Nat.zero_add]

/-- The linear index of an in-range voxel is within the `size³` array. -/
theorem toLinearIndex_lt (size x y z : ℕ) (hx : x < size) (hy : y < size)
    (hz : z < size) : toLinearIndex size x y z < size * size * size := by
  have h1 : (y + 1) * size ≤ size * size := Nat.mul_le_mul_right size hy
  have h2 : (z + 1) * (size * size) ≤ size * (size * size) :=
    Nat.mul_le_mul_right (size * size) hz
  rw [toLinearIndex]
  nlinarith

/-- Membership in the voxel enumeration. -/
theorem mem_voxels (size x y z : ℕ) :
    (x, y, z) ∈ voxels size ↔ x < size ∧ y < size ∧ z < size := by
  constructor
  · intro h
    simp only [voxels, List.mem_flatMap, List.mem_map, List.mem_range] at h
    obtain ⟨a, ha, b, hb, c, hc, heq⟩ := h
    obtain ⟨h1, h2, h3⟩ : a = x ∧ b = y ∧ c = z := by
      simpa [Prod.ext_iff] using heq
    subst h1; subst h2; subst h3
    exact ⟨ha, hb, hc⟩
  · intro ⟨hx, hy, hz⟩
    simp only [voxels, List.mem_flatMap, List.mem_map, List.mem_range]
    exact ⟨x, hx, y, hy, z, hz, rfl⟩

/-- The output vector always has `size³` entries (helper shared by claims). -/
theorem worleyNoise3D_length (size gridSize : ℕ) (draws : ℕ → ℕ) :
    (worleyNoise3D size gridSize draws).length = size * size * size := by
  rw [worleyNoise3D]
  rw [length_foldl_set]
  exact List.length_replicate _ _

/-- The entry at `toLinearIndex(x, y, z)` is the noise value of voxel
`(x, y, z)` (optional-index form). -/
theorem worleyNoise3D_getElem? (size gridSize : ℕ) (draws : ℕ → ℕ)
    (x y z : ℕ) (hx : x < size) (hy : y < size) (hz : z < size) :
    (worleyNoise3D size gridSize draws)[toLinearIndex size x y z]?
      = some (noiseValue (generateFeaturePoints size gridSize draws)
          (maxCellDistance size gridSize) x y z) := by
  obtain ⟨hd1, hd2, hd3⟩ := toLinearIndex_decode size x y z hx hy hz
  rw [worleyNoise3D]
  rw [getElem?_foldl_set_fun (voxels size)
    (fun t => toLinearIndex size t.1 t.2.1 t.2.2)
    (fun t => noiseValue (generateFeaturePoints size gridSize draws)
      (maxCellDistance size gridSize) t.1 t.2.1 t.2.2)
    (fun idx => noiseValue (generateFeaturePoints size gridSize draws)
      (maxCellDistance size gridSize) (idx % size) (idx / size % size) (idx / (size * size)))
    ?_ _ _ ?_ ?_]
  · rw [hd1, hd2, hd3]
  · intro t ht
    obtain ⟨t1, t2, t3⟩ := t
    obtain ⟨ht1, ht2, ht3⟩ := (mem_voxels size t1 t2 t3).mp ht
    obtain ⟨he1, he2, he3⟩ := toLinearIndex_decode size t1 t2 t3 ht1 ht2 ht3
    simp only
    rw [he1, he2, he3]
  · exact ⟨(x, y, z), (mem_voxels size x y z).mpr ⟨hx, hy, hz⟩, rfl⟩
  · rw [List.length_replicate]
    exact toLinearIndex_lt size x y z hx hy hz

/-- Unfolding the stored value: the code stores `1 - min / maxCellDistance`. -/
theorem noiseValue_eq (pts : List Vector3i) (maxD : ℝ) (x y z : ℕ) :
    noiseValue pts maxD x y z
      = 1 - minScan pts ⟨(x : ℝ), (y : ℝ), (z : ℝ)⟩ / maxD := by
  rw [noiseValue, mapValue]
  ring

/-- The normalization constant is positive under the preconditions. -/
theorem maxCellDistance_pos (size gridSize : ℕ) (hg : 0 < gridSize)
    (hgs : gridSize ≤ size) : 0 < maxCellDistance size gridSize := by
  rw [maxCellDistance]
  apply Real.sqrt_pos.mpr
  have h1 : 1 ≤ size / gridSize := (Nat.one_le_div_iff hg).mpr hgs
  have h2 : (1 : ℝ) ≤ sizeOfEachCellF size gridSize := by
    rw [sizeOfEachCellF]
    exact_mod_cast h1
  nlinarith

/-- The generated feature point list is non-empty under the preconditions. -/
theorem generateFeaturePoints_ne_nil (size gridSize : ℕ) (draws : ℕ → ℕ)
    (hg : 0 < gridSize) : generateFeaturePoints size gridSize draws ≠ [] := by
  intro h
  have := generateFeaturePoints_length size gridSize draws
  rw [h] at this
  simp only [List.length_nil] at this
  have : 0 < gridSize * gridSize * gridSize := by positivity
  omega

/-- Master lemma for the Evaluator: under the preconditions, the entry for
voxel `(x, y, z)` equals `1 - m / maxCellDistance` where `m` is the true
global minimum distance to the feature point set: attained at a scanned
point and bounding every scanned point. -/
theorem worleyNoise3D_value_spec (size gridSize : ℕ) (draws : ℕ → ℕ)
    (hsize : size < 2 ^ 64) (hg : 0 < gridSize) (hgs : gridSize ≤ size)
    (hd : drawsAdmissible size gridSize draws)
    (x y z : ℕ) (hx : x < size) (hy : y < size) (hz : z < size) :
    (worleyNoise3D size gridSize draws)[toLinearIndex size x y z]?
      = some (1 - minScan (generateFeaturePoints size gridSize draws)
          ⟨(x : ℝ), (y : ℝ), (z : ℝ)⟩ / maxCellDistance size gridSize) ∧
    (∃ p ∈ generateFeaturePoints size gridSize draws,
      minScan (generateFeaturePoints size gridSize draws) ⟨(x : ℝ), (y : ℝ), (z : ℝ)⟩
        = distance (toVector3f p) ⟨(x : ℝ), (y : ℝ), (z : ℝ)⟩) ∧
    (∀ p ∈ generateFeaturePoints size gridSize draws,
      minScan (generateFeaturePoints size gridSize draws) ⟨(x : ℝ), (y : ℝ), (z : ℝ)⟩
        ≤ distance (toVector3f p) ⟨(x : ℝ), (y : ℝ), (z : ℝ)⟩) := by
  have hlt : ∀ p ∈ generateFeaturePoints size gridSize draws,
      distance (toVector3f p) ⟨(x : ℝ), (y : ℝ), (z : ℝ)⟩ < fltMax := by
    intro p hp
    obtain ⟨hpx, hpy, hpz⟩ :=
      featurePoint_in_volume size gridSize draws hg hgs hd p hp
    exact distance_lt_fltMax size hsize p hpx hpy hpz x y z hx hy hz
  obtain ⟨hat, hmin⟩ := minScan_attained (generateFeaturePoints size gridSize draws)
    ⟨(x : ℝ), (y : ℝ), (z : ℝ)⟩ (generateFeaturePoints_ne_nil size gridSize draws hg) hlt
  refine ⟨?_, hat, hmin⟩
  rw [worleyNoise3D_getElem? size gridSize draws x y z hx hy hz, noiseValue_eq]

/-- Claim C2: for every voxel `(x, y, z)` in `[0, size)³`, `worleyNoise3D`
stores at linear index `x + y·size + z·size²` the value
`1 − minDist / maxCellDistance`, where `minDist` is the true global minimum
Euclidean distance from `(x, y, z)` to any feature point of the generated
set (it is attained at a scanned point and bounds every scanned point).
`size < 2^64` is the `size_t` range of the C++ argument; it guarantees all
distances are below the `FLT_MAX` scan accumulator. -/
theorem C2_stores_global_min (size gridSize : ℕ) (draws : ℕ → ℕ)
    (hsize : size < 2 ^ 64) (hg : 0 < gridSize) (hgs : gridSize ≤ size)
    (hd : drawsAdmissible size gridSize draws)
    (x y z : ℕ) (hx : x < size) (hy : y < size) (hz : z < size) :
    ∃ minDist : ℝ,
      (∃ p ∈ generateFeaturePoints size gridSize draws,
        minDist = distance (toVector3f p) ⟨(x : ℝ), (y : ℝ), (z : ℝ)⟩) ∧
      (∀ p ∈ generateFeaturePoints size gridSize draws,
        minDist ≤ distance (toVector3f p) ⟨(x : ℝ), (y : ℝ), (z : ℝ)⟩) ∧
      (worleyNoise3D size gridSize draws)[x + y * size + z * size * size]?
        = some (1 - minDist / maxCellDistance size gridSize) := by
  obtain ⟨h1, ⟨p, hp, hpe⟩, hmin⟩ :=
    worleyNoise3D_value_spec size gridSize draws hsize hg hgs hd x y z hx hy hz
  exact ⟨minScan (generateFeaturePoints size gridSize draws) ⟨(x : ℝ), (y : ℝ), (z : ℝ)⟩,
    ⟨p, hp, hpe⟩, hmin, h1⟩

/-- Claim C2 witness at `size = 1, gridSize = 1`, all draws 0, voxel `(0,0,0)`. -/
theorem C2_stores_global_min_witness :
    ∃ minDist : ℝ,
      (∃ p ∈ generateFeaturePoints 1 1 (fun _ => 0),
        minDist = distance (toVector3f p) ⟨((0 : ℕ) : ℝ), ((0 : ℕ) : ℝ), ((0 : ℕ) : ℝ)⟩) ∧
      (∀ p ∈ generateFeaturePoints 1 1 (fun _ => 0),
        minDist ≤ distance (toVector3f p) ⟨((0 : ℕ) : ℝ), ((0 : ℕ) : ℝ), ((0 : ℕ) : ℝ)⟩) ∧
      (worleyNoise3D 1 1 (fun _ => 0))[0 + 0 * 1 + 0 * 1 * 1]?
        = some (1 - minDist / maxCellDistance 1 1) :=
  C2_stores_global_min 1 1 (fun _ => 0) (by norm_num) (by norm_num) (by norm_num)
    (fun _ => by norm_num) 0 0 0 (by norm_num) (by norm_num) (by norm_num)

/-- Claim C3: for all valid inputs the returned array has length exactly
`size³`. -/
theorem C3_output_length (size gridSize : ℕ) (draws : ℕ → ℕ)
    (hg : 0 < gridSize) (hgs : gridSize ≤ size) :
    (worleyNoise3D size gridSize draws).length = size ^ 3 := by
  rw [worleyNoise3D_length]
  ring

/-- Claim C3 witness at `size = 2, gridSize = 1`. -/
theorem C3_output_length_witness :
    (worleyNoise3D 2 1 (fun _ => 0)).length = 2 ^ 3 :=
  C3_output_length 2 1 (fun _ => 0) (by norm_num) (by norm_num)

/-- Claim C5: every stored value is `≤ 1`, and the remap is not clamped:
whenever every feature point is farther from the voxel than
`maxCellDistance`, the stored value is strictly negative. -/
theorem C5_range_unclamped (size gridSize : ℕ) (draws : ℕ → ℕ)
    (hsize : size < 2 ^ 64) (hg : 0 < gridSize) (hgs : gridSize ≤ size)
    (hd : drawsAdmissible size gridSize draws)
    (x y z : ℕ) (hx : x < size) (hy : y < size) (hz : z < size) :
    ∃ v : ℝ,
      (worleyNoise3D size gridSize draws)[x + y * size + z * size * size]? = some v ∧
      v ≤ 1 ∧
      ((∀ p ∈ generateFeaturePoints size gridSize draws,
          maxCellDistance size gridSize
            < distance (toVector3f p) ⟨(x : ℝ), (y : ℝ), (z : ℝ)⟩) → v < 0) := by
  obtain ⟨h1, ⟨p0, hp0, hp0e⟩, hmin⟩ :=
    worleyNoise3D_value_spec size gridSize draws hsize hg hgs hd x y z hx hy hz
  have hmaxD : 0 < maxCellDistance size gridSize := maxCellDistance_pos size gridSize hg hgs
  have hm0 : 0 ≤ minScan (generateFeaturePoints size gridSize draws)
      ⟨(x : ℝ), (y : ℝ), (z : ℝ)⟩ := by
    rw [hp0e]
    exact distance_nonneg _ _
  refine ⟨_, h1, ?_, ?_⟩
  · have : 0 ≤ minScan (generateFeaturePoints size gridSize draws)
        ⟨(x : ℝ), (y : ℝ), (z : ℝ)⟩ / maxCellDistance size gridSize :=
      div_nonneg hm0 (le_of_lt hmaxD)
    linarith
  · intro hfar
    have hgt : maxCellDistance size gridSize
        < minScan (generateFeaturePoints size gridSize draws) ⟨(x : ℝ), (y : ℝ), (z : ℝ)⟩ := by
      rw [hp0e]
      exact hfar p0 hp0
    have : 1 < minScan (generateFeaturePoints size gridSize draws)
        ⟨(x : ℝ), (y : ℝ), (z : ℝ)⟩ / maxCellDistance size gridSize :=
      (one_lt_div hmaxD).mpr hgt
    linarith

/-- Claim C5 witness at `size = 1, gridSize = 1`, voxel `(0,0,0)`. -/
theorem C5_range_unclamped_witness :
    ∃ v : ℝ,
      (worleyNoise3D 1 1 (fun _ => 0))[0 + 0 * 1 + 0 * 1 * 1]? = some v ∧
      v ≤ 1 ∧
      ((∀ p ∈ generateFeaturePoints 1 1 (fun _ => 0),
          maxCellDistance 1 1
            < distance (toVector3f p) ⟨((0 : ℕ) : ℝ), ((0 : ℕ) : ℝ), ((0 : ℕ) : ℝ)⟩) → v < 0) :=
  C5_range_unclamped 1 1 (fun _ => 0) (by norm_num) (by norm_num) (by norm_num)
    (fun _ => by norm_num) 0 0 0 (by norm_num) (by norm_num) (by norm_num)

/-- Claim C6: a voxel whose integer coordinates coincide with a generated
feature point stores the value 1 exactly. -/
theorem C6_coincidence (size gridSize : ℕ) (draws : ℕ → ℕ)
    (hsize : size < 2 ^ 64) (hg : 0 < gridSize) (hgs : gridSize ≤ size)
    (hd : drawsAdmissible size gridSize draws)
    (x y z : ℕ) (hx : x < size) (hy : y < size) (hz : z < size)
    (p : Vector3i) (hp : p ∈ generateFeaturePoints size gridSize draws)
    (hpx : p.x = (x : ℤ)) (hpy : p.y = (y : ℤ)) (hpz : p.z = (z : ℤ)) :
    (worleyNoise3D size gridSize draws)[x + y * size + z * size * size]? = some 1 := by
  obtain ⟨h1, ⟨p0, hp0, hp0e⟩, hmin⟩ :=
    worleyNoise3D_value_spec size gridSize draws hsize hg hgs hd x y z hx hy hz
  have hdist0 : distance (toVector3f p) ⟨(x : ℝ), (y : ℝ), (z : ℝ)⟩ = 0 := by
    apply distance_self_eq_zero
    · show ((p.x : ℤ) : ℝ) = ((x : ℕ) : ℝ)
      exact_mod_cast congrArg (fun t : ℤ => (t : ℝ)) hpx
    · show ((p.y : ℤ) : ℝ) = ((y : ℕ) : ℝ)
      exact_mod_cast congrArg (fun t : ℤ => (t : ℝ)) hpy
    · show ((p.z : ℤ) : ℝ) = ((z : ℕ) : ℝ)
      exact_mod_cast congrArg (fun t : ℤ => (t : ℝ)) hpz
  have hm0 : minScan (generateFeaturePoints size gridSize draws)
      ⟨(x : ℝ), (y : ℝ), (z : ℝ)⟩ = 0 := by
    have hle := hmin p hp
    rw [hdist0] at hle
    have hge : 0 ≤ minScan (generateFeaturePoints size gridSize draws)
        ⟨(x : ℝ), (y : ℝ), (z : ℝ)⟩ := by
      rw [hp0e]
      exact distance_nonneg _ _
    linarith
  show (worleyNoise3D size gridSize draws)[toLinearIndex size x y z]? = some 1
  rw [h1, hm0]
  norm_num

/-- Claim C6 witness at `size = 1, gridSize = 1`: the only feature point is
`(0,0,0)`, which coincides with voxel `(0,0,0)`. -/
theorem C6_coincidence_witness :
    (worleyNoise3D 1 1 (fun _ => 0))[0 + 0 * 1 + 0 * 1 * 1]? = some 1 :=
  C6_coincidence 1 1 (fun _ => 0) (by norm_num) (by norm_num) (by norm_num)
    (fun _ => by norm_num) 0 0 0 (by norm_num) (by norm_num) (by norm_num)
    ⟨0, 0, 0⟩ (by decide) (by norm_num) (by norm_num) (by norm_num)

/-- Claim C8: under the precondition `0 < gridSize ≤ size`, the divisor of
every division is non-zero and the `mapValue` denominator
`maxCellDistance − 0` is non-zero, the truncated cell edge is at least 1
(so the random range `[0, cellEdge − 1]` is non-empty), and every write
index `toLinearIndex(x, y, z)` is within the `size³` array. -/
theorem C8_safety (size gridSize : ℕ) (hg : 0 < gridSize) (hgs : gridSize ≤ size) :
    gridSize ≠ 0 ∧
    1 ≤ sizeOfEachCellInt size gridSize ∧
    maxCellDistance size gridSize - 0 ≠ 0 ∧
    ∀ x y z, x < size → y < size → z < size →
      toLinearIndex size x y z < size * size * size := by
  refine ⟨Nat.pos_iff_ne_zero.mp hg, sizeOfEachCellInt_pos size gridSize hg hgs, ?_,
    fun x y z hx hy hz => toLinearIndex_lt size x y z hx hy hz⟩
  have := maxCellDistance_pos size gridSize hg hgs
  intro h
  rw [sub_zero] at h
  exact absurd h (ne_of_gt this)

/-- Claim C8 witness at `size = 2, gridSize = 1`. -/
theorem C8_safety_witness :
    (1 : ℕ) ≠ 0 ∧
    1 ≤ sizeOfEachCellInt 2 1 ∧
    maxCellDistance 2 1 - 0 ≠ 0 ∧
    ∀ x y z, x < 2 → y < 2 → z < 2 → toLinearIndex 2 x y z < 2 * 2 * 2 :=
  C8_safety 2 1 (by norm_num) (by norm_num)

/-- Claim C10: for all valid inputs and admissible draws, every generated
feature point lies inside the output volume: each component is in
`[0, size)`. -/
theorem C10_points_in_volume (size gridSize : ℕ) (draws : ℕ → ℕ)
    (hg : 0 < gridSize) (hgs : gridSize ≤ size)
    (hd : drawsAdmissible size gridSize draws) :
    ∀ p ∈ generateFeaturePoints size gridSize draws,
      (0 ≤ p.x ∧ p.x < (size : ℤ)) ∧ (0 ≤ p.y ∧ p.y < (size : ℤ)) ∧
      (0 ≤ p.z ∧ p.z < (size : ℤ)) :=
  fun p hp => featurePoint_in_volume size gridSize draws hg hgs hd p hp

/-- Claim C10 witness at `size = 5, gridSize = 2` (size not divisible by
gridSize): the generated point `(1,1,1)` of cell `(0,0,0)` lies in the
volume. -/
theorem C10_points_in_volume_witness :
    (0 ≤ (⟨1, 1, 1⟩ : Vector3i).x ∧ (⟨1, 1, 1⟩ : Vector3i).x < (5 : ℤ)) ∧
    (0 ≤ (⟨1, 1, 1⟩ : Vector3i).y ∧ (⟨1, 1, 1⟩ : Vector3i).y < (5 : ℤ)) ∧
    (0 ≤ (⟨1, 1, 1⟩ : Vector3i).z ∧ (⟨1, 1, 1⟩ : Vector3i).z < (5 : ℤ)) :=
  C10_points_in_volume 5 2 (fun _ => 1) (by norm_num) (by norm_num)
    (fun _ => by norm_num) ⟨1, 1, 1⟩ (by decide)

/-- Claim C4: the generator returns exactly `gridSize³` points, the point
for cell `(i, j, k)` sits at flat index `(i·gridSize + j)·gridSize + k`
(row-major, `i` outermost, `k` innermost), and each component lies within
`[i·cellEdge, (i+1)·cellEdge − 1]` for the truncated cell edge. -/
theorem C4_generator_spec (size gridSize : ℕ) (draws : ℕ → ℕ)
    (hg : 0 < gridSize) (hgs : gridSize ≤ size)
    (hd : drawsAdmissible size gridSize draws) :
    (generateFeaturePoints size gridSize draws).length = gridSize ^ 3 ∧
    ∀ i j k, i < gridSize → j < gridSize → k < gridSize →
      ∃ p : Vector3i,
        (generateFeaturePoints size gridSize draws)[(i * gridSize + j) * gridSize + k]?
          = some p ∧
        (i : ℤ) * sizeOfEachCellInt size gridSize ≤ p.x ∧
        p.x ≤ ((i : ℤ) + 1) * sizeOfEachCellInt size gridSize - 1 ∧
        (j : ℤ) * sizeOfEachCellInt size gridSize ≤ p.y ∧
        p.y ≤ ((j : ℤ) + 1) * sizeOfEachCellInt size gridSize - 1 ∧
        (k : ℤ) * sizeOfEachCellInt size gridSize ≤ p.z ∧
        p.z ≤ ((k : ℤ) + 1) * sizeOfEachCellInt size gridSize - 1 := by
  refine ⟨by rw [generateFeaturePoints_length]; ring, ?_⟩
  intro i j k hi hj hk
  exact ⟨featurePoint size gridSize draws i j k,
    generateFeaturePoints_getElem? size gridSize draws i j k hi hj hk,
    featurePoint_bounds size gridSize draws hd i j k⟩

/-- Claim C4 witness at `size = 2, gridSize = 2`, all draws 0. -/
theorem C4_generator_spec_witness :
    (generateFeaturePoints 2 2 (fun _ => 0)).length = 2 ^ 3 ∧
    ∀ i j k : ℕ, i < 2 → j < 2 → k < 2 →
      ∃ p : Vector3i,
        (generateFeaturePoints 2 2 (fun _ => 0))[(i * 2 + j) * 2 + k]? = some p ∧
        (i : ℤ) * sizeOfEachCellInt 2 2 ≤ p.x ∧
        p.x ≤ ((i : ℤ) + 1) * sizeOfEachCellInt 2 2 - 1 ∧
        (j : ℤ) * sizeOfEachCellInt 2 2 ≤ p.y ∧
        p.y ≤ ((j : ℤ) + 1) * sizeOfEachCellInt 2 2 - 1 ∧
        (k : ℤ) * sizeOfEachCellInt 2 2 ≤ p.z ∧
        p.z ≤ ((k : ℤ) + 1) * sizeOfEachCellInt 2 2 - 1 :=
  C4_generator_spec 2 2 (fun _ => 0) (by norm_num) (by norm_num) (fun _ => by norm_num)

/-- Decomposition of a flat index below `g³` into its cell triple. -/
theorem flat_index_decomp (g m : ℕ) (hm : m < g * g * g) :
    m / (g * g) < g ∧ m / g % g < g ∧ m % g < g ∧
    ((m / (g * g)) * g + m / g % g) * g + m % g = m := by
  have hg : 0 < g := by
    rcases Nat.eq_zero_or_pos g with rfl | h
    · simp at hm
    · exact h
  refine ⟨?_, Nat.mod_lt _ hg, Nat.mod_lt _ hg, ?_⟩
  · rw [Nat.div_lt_iff_lt_mul (Nat.mul_pos hg hg)]
    exact lt_of_lt_of_eq hm (by ring)
  · have h1 := Nat.div_add_mod m g
    have h2 := Nat.div_add_mod (m / g) g
    have h3 : m / g / g = m / (g * g) := Nat.div_div_eq_div_mul m g g
    calc ((m / (g * g)) * g + m / g % g) * g + m % g
        = ((m / g / g) * g + m / g % g) * g + m % g := by rw [h3]
      _ = (g * (m / g / g) + m / g % g) * g + m % g := by ring
      _ = (m / g) * g + m % g := by rw [h2]
      _ = g * (m / g) + m % g := by ring
      _ = m := h1

/-- Two cell indices whose scaled positions with in-cell offsets coincide
are equal. -/
theorem cell_index_inj (c a b r s : ℤ) (hr : 0 ≤ r) (hr2 : r < c)
    (hs : 0 ≤ s) (hs2 : s < c) (heq : a * c + r = b * c + s) : a = b := by
  by_contra hne
  rcases lt_or_gt_of_ne hne with h | h
  · have hab : a + 1 ≤ b := h
    nlinarith
  · have hab : b + 1 ≤ a := h
    nlinarith

/-- Claim C9: for all valid inputs and admissible draws, the `gridSize³`
generated feature points are pairwise distinct. -/
theorem C9_points_distinct (size gridSize : ℕ) (draws : ℕ → ℕ)
    (hg : 0 < gridSize) (hgs : gridSize ≤ size)
    (hd : drawsAdmissible size gridSize draws) :
    (generateFeaturePoints size gridSize draws).Nodup := by
  rw [List.nodup_iff_getElem?_ne_getElem?]
  intro m m' hlt hm'len heq
  have hlen := generateFeaturePoints_length size gridSize draws
  have hm'g : m' < gridSize * gridSize * gridSize := by rw [hlen] at hm'len; exact hm'len
  have hmg : m < gridSize * gridSize * gridSize := lt_trans hlt hm'g
  obtain ⟨hi, hj, hk, hdm⟩ := flat_index_decomp gridSize m hmg
  obtain ⟨hi', hj', hk', hdm'⟩ := flat_index_decomp gridSize m' hm'g
  have e1 := generateFeaturePoints_getElem? size gridSize draws _ _ _ hi hj hk
  rw [hdm] at e1
  have e2 := generateFeaturePoints_getElem? size gridSize draws _ _ _ hi' hj' hk'
  rw [hdm'] at e2
  rw [e1, e2] at heq
  have hfp := Option.some_injective _ heq
  have hc1 : (0 : ℤ) < sizeOfEachCellInt size gridSize := by
    have := sizeOfEachCellInt_pos size gridSize hg hgs
    omega
  have hdrawlt : ∀ n, (draws n : ℤ) < sizeOfEachCellInt size gridSize := by
    intro n
    have := hd n
    simp only [sizeOfEachCellInt]
    exact_mod_cast this
  have hxe := congrArg Vector3.x hfp
  have hye := congrArg Vector3.y hfp
  have hze := congrArg Vector3.z hfp
  simp only [featurePoint] at hxe hye hze
  have hie : ((m / (gridSize * gridSize) : ℕ) : ℤ) = ((m' / (gridSize * gridSize) : ℕ) : ℤ) :=
    cell_index_inj (sizeOfEachCellInt size gridSize) _ _ _ _
      (Int.ofNat_nonneg _) (hdrawlt _) (Int.ofNat_nonneg _) (hdrawlt _) hxe
  have hje : ((m / gridSize % gridSize : ℕ) : ℤ) = ((m' / gridSize % gridSize : ℕ) : ℤ) :=
    cell_index_inj (sizeOfEachCellInt size gridSize) _ _ _ _
      (Int.ofNat_nonneg _) (hdrawlt _) (Int.ofNat_nonneg _) (hdrawlt _) hye
  have hke : ((m % gridSize : ℕ) : ℤ) = ((m' % gridSize : ℕ) : ℤ) :=
    cell_index_inj (sizeOfEachCellInt size gridSize) _ _ _ _
      (Int.ofNat_nonneg _) (hdrawlt _) (Int.ofNat_nonneg _) (hdrawlt _) hze
  have hieq : m / (gridSize * gridSize) = m' / (gridSize * gridSize) := by exact_mod_cast hie
  have hjeq : m / gridSize % gridSize = m' / gridSize % gridSize := by exact_mod_cast hje
  have hkeq : m % gridSize = m' % gridSize := by exact_mod_cast hke
  have : m = m' := by
    rw [← hdm, ← hdm', hieq, hjeq, hkeq]
  omega

/-- Claim C9 witness at `size = 4, gridSize = 2`, all draws 1. -/
theorem C9_points_distinct_witness :
    (generateFeaturePoints 4 2 (fun _ => 1)).Nodup :=
  C9_points_distinct 4 2 (fun _ => 1) (by norm_num) (by norm_num) (fun _ => by norm_num)

/-- Distance from a feature point to a voxel at integer parameter `t` along
an integer direction. -/
theorem distance_ray (p dir : Vector3i) (t : ℕ) (x y z : ℕ)
    (hx : (x : ℤ) = p.x + t * dir.x) (hy : (y : ℤ) = p.y + t * dir.y)
    (hz : (z : ℤ) = p.z + t * dir.z) :
    distance (toVector3f p) ⟨(x : ℝ), (y : ℝ), (z : ℝ)⟩
      = Real.sqrt ((t : ℝ) ^ 2 *
          (((dir.x : ℤ) : ℝ) ^ 2 + ((dir.y : ℤ) : ℝ) ^ 2 + ((dir.z : ℤ) : ℝ) ^ 2)) := by
  have ex : ((x : ℕ) : ℝ) = ((p.x : ℤ) : ℝ) + (t : ℝ) * ((dir.x : ℤ) : ℝ) := by
    have := congrArg (fun u : ℤ => (u : ℝ)) hx
    push_cast at this
    exact this
  have ey : ((y : ℕ) : ℝ) = ((p.y : ℤ) : ℝ) + (t : ℝ) * ((dir.y : ℤ) : ℝ) := by
    have := congrArg (fun u : ℤ => (u : ℝ)) hy
    push_cast at this
    exact this
  have ez : ((z : ℕ) : ℝ) = ((p.z : ℤ) : ℝ) + (t : ℝ) * ((dir.z : ℤ) : ℝ) := by
    have := congrArg (fun u : ℤ => (u : ℝ)) hz
    push_cast at this
    exact this
  rw [distance]
  congr 1
  show (((x : ℕ) : ℝ) - ((p.x : ℤ) : ℝ)) * (((x : ℕ) : ℝ) - ((p.x : ℤ) : ℝ)) +
      (((y : ℕ) : ℝ) - ((p.y : ℤ) : ℝ)) * (((y : ℕ) : ℝ) - ((p.y : ℤ) : ℝ)) +
      (((z : ℕ) : ℝ) - ((p.z : ℤ) : ℝ)) * (((z : ℕ) : ℝ) - ((p.z : ℤ) : ℝ)) = _
  rw [ex, ey, ez]
  ring

/-- Claim C7: along a straight ray from a feature point outward, provided
no other feature point is closer at either sampled voxel, the stored value
is non-increasing as the ray parameter (hence the distance to the feature
point) increases. -/
theorem C7_ray_monotone (size gridSize : ℕ) (draws : ℕ → ℕ)
    (hsize : size < 2 ^ 64) (hg : 0 < gridSize) (hgs : gridSize ≤ size)
    (hd : drawsAdmissible size gridSize draws)
    (p : Vector3i) (hp : p ∈ generateFeaturePoints size gridSize draws)
    (dir : Vector3i) (t₁ t₂ : ℕ) (ht : t₁ ≤ t₂)
    (x₁ y₁ z₁ x₂ y₂ z₂ : ℕ)
    (hx₁ : (x₁ : ℤ) = p.x + t₁ * dir.x) (hy₁ : (y₁ : ℤ) = p.y + t₁ * dir.y)
    (hz₁ : (z₁ : ℤ) = p.z + t₁ * dir.z)
    (hx₂ : (x₂ : ℤ) = p.x + t₂ * dir.x) (hy₂ : (y₂ : ℤ) = p.y + t₂ * dir.y)
    (hz₂ : (z₂ : ℤ) = p.z + t₂ * dir.z)
    (hx₁s : x₁ < size) (hy₁s : y₁ < size) (hz₁s : z₁ < size)
    (hx₂s : x₂ < size) (hy₂s : y₂ < size) (hz₂s : z₂ < size)
    (hnear₁ : ∀ q ∈ generateFeaturePoints size gridSize draws,
      distance (toVector3f p) ⟨(x₁ : ℝ), (y₁ : ℝ), (z₁ : ℝ)⟩
        ≤ distance (toVector3f q) ⟨(x₁ : ℝ), (y₁ : ℝ), (z₁ : ℝ)⟩)
    (hnear₂ : ∀ q ∈ generateFeaturePoints size gridSize draws,
      distance (toVector3f p) ⟨(x₂ : ℝ), (y₂ : ℝ), (z₂ : ℝ)⟩
        ≤ distance (toVector3f q) ⟨(x₂ : ℝ), (y₂ : ℝ), (z₂ : ℝ)⟩) :
    ∃ v₁ v₂ : ℝ,
      (worleyNoise3D size gridSize draws)[x₁ + y₁ * size + z₁ * size * size]? = some v₁ ∧
      (worleyNoise3D size gridSize draws)[x₂ + y₂ * size + z₂ * size * size]? = some v₂ ∧
      v₂ ≤ v₁ := by
  obtain ⟨h1, ⟨q₁, hq₁, hq₁e⟩, hmin₁⟩ :=
    worleyNoise3D_value_spec size gridSize draws hsize hg hgs hd x₁ y₁ z₁ hx₁s hy₁s hz₁s
  obtain ⟨h2, ⟨q₂, hq₂, hq₂e⟩, hmin₂⟩ :=
    worleyNoise3D_value_spec size gridSize draws hsize hg hgs hd x₂ y₂ z₂ hx₂s hy₂s hz₂s
  have hm₁ : minScan (generateFeaturePoints size gridSize draws)
      ⟨(x₁ : ℝ), (y₁ : ℝ), (z₁ : ℝ)⟩
        = distance (toVector3f p) ⟨(x₁ : ℝ), (y₁ : ℝ), (z₁ : ℝ)⟩ := by
    refine le_antisymm (hmin₁ p hp) ?_
    rw [hq₁e]
    exact hnear₁ q₁ hq₁
  have hm₂ : minScan (generateFeaturePoints size gridSize draws)
      ⟨(x₂ : ℝ), (y₂ : ℝ), (z₂ : ℝ)⟩
        = distance (toVector3f p) ⟨(x₂ : ℝ), (y₂ : ℝ), (z₂ : ℝ)⟩ := by
    refine le_antisymm (hmin₂ p hp) ?_
    rw [hq₂e]
    exact hnear₂ q₂ hq₂
  have hdist_le : distance (toVector3f p) ⟨(x₁ : ℝ), (y₁ : ℝ), (z₁ : ℝ)⟩
      ≤ distance (toVector3f p) ⟨(x₂ : ℝ), (y₂ : ℝ), (z₂ : ℝ)⟩ := by
    rw [distance_ray p dir t₁ x₁ y₁ z₁ hx₁ hy₁ hz₁,
      distance_ray p dir t₂ x₂ y₂ z₂ hx₂ hy₂ hz₂]
    apply Real.sqrt_le_sqrt
    have hts : (t₁ : ℝ) ≤ (t₂ : ℝ) := by exact_mod_cast ht
    have ht1 : (0 : ℝ) ≤ (t₁ : ℝ) := Nat.cast_nonneg _
    have hD : (0 : ℝ) ≤ ((dir.x : ℤ) : ℝ) ^ 2 + ((dir.y : ℤ) : ℝ) ^ 2 + ((dir.z : ℤ) : ℝ) ^ 2 := by
      positivity
    have hsq : (t₁ : ℝ) ^ 2 ≤ (t₂ : ℝ) ^ 2 := by nlinarith
    exact mul_le_mul_of_nonneg_right hsq hD
  have hmaxD : 0 < maxCellDistance size gridSize := maxCellDistance_pos size gridSize hg hgs
  refine ⟨_, _, h1, h2, ?_⟩
  have hdiv : minScan (generateFeaturePoints size gridSize draws)
        ⟨(x₁ : ℝ), (y₁ : ℝ), (z₁ : ℝ)⟩ / maxCellDistance size gridSize
      ≤ minScan (generateFeaturePoints size gridSize draws)
        ⟨(x₂ : ℝ), (y₂ : ℝ), (z₂ : ℝ)⟩ / maxCellDistance size gridSize := by
    apply (div_le_div_right hmaxD).mpr
    rw [hm₁, hm₂]
    exact hdist_le
  linarith

/-- Claim C7 witness at `size = 2, gridSize = 1`: the single feature point
is `(0,0,0)`; the ray goes in direction `(1,0,0)` from parameter 0 to 1. -/
theorem C7_ray_monotone_witness :
    ∃ v₁ v₂ : ℝ,
      (worleyNoise3D 2 1 (fun _ => 0))[0 + 0 * 2 + 0 * 2 * 2]? = some v₁ ∧
      (worleyNoise3D 2 1 (fun _ => 0))[1 + 0 * 2 + 0 * 2 * 2]? = some v₂ ∧
      v₂ ≤ v₁ := by
  have hlist : generateFeaturePoints 2 1 (fun _ => 0) = [⟨0, 0, 0⟩] := by decide
  refine C7_ray_monotone 2 1 (fun _ => 0) (by norm_num) (by norm_num) (by norm_num)
    (fun _ => by norm_num) ⟨0, 0, 0⟩ (by rw [hlist]; exact List.mem_singleton.mpr rfl)
    ⟨1, 0, 0⟩ 0 1 (by norm_num) 0 0 0 1 0 0
    (by norm_num) (by norm_num) (by norm_num) (by norm_num) (by norm_num) (by norm_num)
    (by norm_num) (by norm_num) (by norm_num) (by norm_num) (by norm_num) (by norm_num)
    ?_ ?_ <;>
  · intro q hq
    rw [hlist] at hq
    rw [List.mem_singleton.mp hq]

end worley
